import Mathlib

/-!
Verification of the aejo route/validation composition library
(src/lib/index.ts) against its specification.

The TypeScript source is shallowly embedded: JavaScript objects become
insertion-ordered association lists (`JsObj`), imperative loops become
folds, exceptions and runtime `TypeError`s become `Option`, and the
external AJV engine is a black box (a compiled validator is recorded by
the schema it was compiled from; its runtime behaviour is an abstract
pass/fail function together with a structured error list).
-/

set_option maxHeartbeats 1000000

namespace Aejo

/-- A JavaScript object: an insertion-ordered association list from string
keys to values.  Objects built by this development never carry duplicate
keys (mirroring real JS objects). -/
abbrev JsObj (α : Type) : Type := List (String × α)

/-- Property write `o[k] = v`: updates the first binding of `k` in place
(keeping its position, as JS does), otherwise appends a new binding. -/
def jsSet {α : Type} : JsObj α → String → α → JsObj α
  | [], k, v => [(k, v)]
  | (k2, v2) :: rest, k, v =>
    if k2 = k then (k, v) :: rest else (k2, v2) :: jsSet rest k v

/-- Property read `o[k]`: the first binding of `k`, `none` for `undefined`. -/
def jsLookup {α : Type} : JsObj α → String → Option α
  | [], _ => none
  | (k2, v2) :: rest, k => if k2 = k then some v2 else jsLookup rest k

/-- `Object.keys(o)` in insertion order. -/
def jsKeys {α : Type} (o : JsObj α) : List String := o.map (fun kv => kv.1)

/-- `delete o[k]`: removes the first binding of `k`. -/
def jsDelete {α : Type} : JsObj α → String → JsObj α
  | [], _ => []
  | (k2, v2) :: rest, k =>
    if k2 = k then rest else (k2, v2) :: jsDelete rest k

/-- Object spread `{ ...a, ...b }` (also `Object.assign(a, b)`): every
binding of `b` is written into `a` in order, later keys winning. -/
def jsSpread {α : Type} (a b : JsObj α) : JsObj α :=
  b.foldl (fun acc kv => jsSet acc kv.1 kv.2) a

theorem jsLookup_jsSet {α : Type} (o : JsObj α) (k k2 : String) (v : α) :
    jsLookup (jsSet o k v) k2 = if k2 = k then some v else jsLookup o k2 := by
  induction o with
  | nil =>
    by_cases h : k2 = k
    · subst h; simp [jsSet, jsLookup]
    · have h2 : ¬ k = k2 := fun e => h e.symm
      simp [jsSet, jsLookup, h, h2]
  | cons kv rest ih =>
    obtain ⟨k3, v3⟩ := kv
    by_cases h3 : k3 = k
    · subst h3
      by_cases h : k2 = k3
      · subst h; simp [jsSet, jsLookup]
      · have h2 : ¬ k3 = k2 := fun e => h e.symm
        simp [jsSet, jsLookup, h, h2]
    · by_cases h : k2 = k3
      · subst h
        have h2 : ¬ k2 = k := fun e => h3 (by simp [e])
        simp [jsSet, jsLookup, h3, h2]
      · have h2 : ¬ k3 = k2 := fun e => h e.symm
        simp [jsSet, jsLookup, h3, h2, ih]

theorem jsLookup_eq_none {α : Type} (o : JsObj α) (k : String) :
    jsLookup o k = none ↔ k ∉ jsKeys o := by
  induction o with
  | nil => simp [jsLookup, jsKeys]
  | cons kv rest ih =>
    obtain ⟨k2, v2⟩ := kv
    by_cases h : k2 = k
    · subst h; simp [jsLookup, jsKeys]
    · have h2 : ¬ k = k2 := fun e => h e.symm
      simp [jsLookup, jsKeys, h, h2, ih, jsKeys]

theorem jsKeys_jsSet_mem {α : Type} (o : JsObj α) (k k2 : String) (v : α) :
    k2 ∈ jsKeys (jsSet o k v) ↔ k2 ∈ jsKeys o ∨ k2 = k := by
  induction o with
  | nil => simp [jsSet, jsKeys]
  | cons kv rest ih =>
    obtain ⟨k3, v3⟩ := kv
    by_cases h3 : k3 = k
    · subst h3
      simp [jsSet, jsKeys]
      tauto
    · simp only [jsSet, if_neg h3, jsKeys, List.map_cons, List.mem_cons]
      have := ih
      simp only [jsKeys] at this
      rw [this]
      tauto

theorem jsSet_fresh {α : Type} (o : JsObj α) (k : String) (v : α)
    (h : k ∉ jsKeys o) : jsSet o k v = o ++ [(k, v)] := by
  induction o with
  | nil => simp [jsSet]
  | cons kv rest ih =>
    obtain ⟨k2, v2⟩ := kv
    simp only [jsKeys, List.map_cons, List.mem_cons] at h
    push_neg at h
    have h2 : ¬ k2 = k := fun e => h.1 e.symm
    simp only [jsSet, if_neg h2, List.cons_append, List.cons.injEq, true_and]
    exact ih h.2

theorem jsKeys_jsSet_nodup {α : Type} (o : JsObj α) (k : String) (v : α)
    (h : (jsKeys o).Nodup) : (jsKeys (jsSet o k v)).Nodup := by
  induction o with
  | nil => simp [jsSet, jsKeys]
  | cons kv rest ih =>
    obtain ⟨k2, v2⟩ := kv
    simp only [jsKeys, List.map_cons, List.nodup_cons] at h
    by_cases h2 : k2 = k
    · subst h2
      simpa [jsSet, jsKeys] using h
    · simp only [jsSet, if_neg h2, jsKeys, List.map_cons, List.nodup_cons]
      refine ⟨?_, ih h.2⟩
      intro hc
      rw [show (jsSet rest k v).map (fun kv => kv.1) = jsKeys (jsSet rest k v)
            from rfl, jsKeys_jsSet_mem] at hc
      rcases hc with hc | hc
      · exact h.1 hc
      · exact h2 hc

theorem jsLookup_jsSpread {α : Type} (a b : JsObj α) (hb : (jsKeys b).Nodup)
    (k : String) :
    jsLookup (jsSpread a b) k
      = ((jsLookup b k).rec (jsLookup a k) (fun v => some v) : Option α) := by
  induction b generalizing a with
  | nil => simp [jsSpread, jsLookup]
  | cons kv rest ih =>
    obtain ⟨k2, v2⟩ := kv
    simp only [jsKeys, List.map_cons, List.nodup_cons] at hb
    simp only [jsSpread, List.foldl_cons]
    rw [show List.foldl (fun acc kv => jsSet acc kv.1 kv.2) (jsSet a k2 v2) rest
          = jsSpread (jsSet a k2 v2) rest from rfl]
    rw [ih _ hb.2]
    by_cases h : k2 = k
    · subst h
      have hnone : jsLookup rest k2 = none := by
        rw [jsLookup_eq_none]; exact hb.1
      simp [hnone, jsLookup, jsLookup_jsSet]
    · have h2 : ¬ k = k2 := fun e => h e.symm
      rcases hc : jsLookup rest k with _ | val
      · simp [hc, jsLookup, h, h2, jsLookup_jsSet]
      · simp [hc, jsLookup, h, h2]

theorem jsKeys_jsSpread_mem {α : Type} (a b : JsObj α) (k : String) :
    k ∈ jsKeys (jsSpread a b) ↔ k ∈ jsKeys a ∨ k ∈ jsKeys b := by
  induction b generalizing a with
  | nil => simp [jsSpread, jsKeys]
  | cons kv rest ih =>
    obtain ⟨k2, v2⟩ := kv
    simp only [jsSpread, List.foldl_cons]
    rw [show List.foldl (fun acc kv => jsSet acc kv.1 kv.2) (jsSet a k2 v2) rest
          = jsSpread (jsSet a k2 v2) rest from rfl]
    rw [ih, jsKeys_jsSet_mem]
    simp only [jsKeys, List.map_cons, List.mem_cons]
    tauto

theorem jsLookup_jsSpread_mem {α : Type} (a b : JsObj α)
    (hb : (jsKeys b).Nodup) (k : String) (h : k ∈ jsKeys b) :
    jsLookup (jsSpread a b) k = jsLookup b k := by
  rw [jsLookup_jsSpread a b hb k]
  rcases hc : jsLookup b k with _ | v
  · rw [jsLookup_eq_none] at hc
    exact absurd h hc
  · rfl

theorem jsLookup_jsSpread_not_mem {α : Type} (a b : JsObj α)
    (hb : (jsKeys b).Nodup) (k : String) (h : k ∉ jsKeys b) :
    jsLookup (jsSpread a b) k = jsLookup a k := by
  rw [jsLookup_jsSpread a b hb k]
  have hc : jsLookup b k = none := (jsLookup_eq_none b k).mpr h
  rw [hc]

/-! ## Parameters and the validator compiler (src/lib/index.ts 406-537)

The schema payload type is an abstract `σ`: the source hands schemas
verbatim to AJV and copies them verbatim into synthesized object schemas
(`{ ...s.schema }` copies a value, which in a pure model is the value
itself). -/

/-- The `ParamIn` union type of open-api-3.d.ts: `"query" | "path" | "body"`. -/
inductive ParamIn : Type
  | query : ParamIn
  | path : ParamIn
  | body : ParamIn
deriving DecidableEq, Repr

/-- The string form of a `ParamIn` tag (the value of the `in` field). -/
def ParamIn.str : ParamIn → String
  | .query => ("query")
  | .path => ("path")
  | .body => ("body")

/-- The `Parameter` interface.  The source field `in` is a reserved word
here and is named `pin` (the name the source's `Param` builder uses for
it); `required?: boolean` becomes `Option Bool`. -/
structure Parameter (σ : Type) where
  pin : ParamIn
  name : String
  description : Option String := none
  required : Option Bool := none
  schema : σ
deriving DecidableEq, Repr

/-- The object schema synthesized by `validateParams`:
`{ type: 'object', properties: {...}, required: [...] }`. -/
structure SynthSchema (σ : Type) where
  type : String
  properties : JsObj σ
  required : List String
deriving DecidableEq, Repr

/-- `validateParams` (src/lib/index.ts 466-479): folds the parameter list
into one object schema, writing `properties[s.name] = { ...s.schema }` and
pushing `s.name` onto `required` when `s.required === true`. -/
def validateParams {σ : Type} (p : List (Parameter σ)) : SynthSchema σ :=
  p.foldl
    (fun acc s =>
      { acc with
        properties := jsSet acc.properties s.name s.schema
        required :=
          if s.required = some true then acc.required ++ [s.name]
          else acc.required })
    { type := ("object"), properties := [], required := [] }

/-- `const inMap = { path: 'params', query: 'query' }` (line 481).
Note there is no entry for `body`. -/
def inMap : JsObj String := [(("path"), ("params")), (("query"), ("query"))]

/-- The group key used by `groupByParamIn` for a parameter location:
`inMap[p.in]`.  For `body` the lookup yields JS `undefined`, and using
`undefined` as a property key coerces it to the string `"undefined"`. -/
def groupKey (pin : ParamIn) : String :=
  (jsLookup inMap pin.str).getD ("undefined")

/-- `groupByParamIn` (src/lib/index.ts 483-491): partitions the parameter
list into an object of location groups keyed by `inMap[p.in]`, pushing
each parameter onto its group in order. -/
def groupByParamIn {σ : Type} (params : List (Parameter σ)) :
    JsObj (List (Parameter σ)) :=
  params.foldl
    (fun group p =>
      let m := groupKey p.pin
      match jsLookup group m with
      | none => jsSet group m [p]
      | some l => jsSet group m (l ++ [p]))
    []

/-- A compiled request-gating handler produced by `validateBuilder`: the
external engine's compiled validator is recorded by the schema it was
compiled from, together with the request property the handler checks. -/
structure VHandler (σ : Type) where
  schema : SynthSchema σ
  whereIn : String
deriving DecidableEq, Repr

/-- `validateBuilder` (src/lib/index.ts 495-526): for each key of the
grouped parameters, synthesize a schema with `validateParams`, compile it,
record it under the key, and push one gating handler.  (The source's
write-only `validators` record is dead code and is omitted; the `ajv`
engine argument is the black-box compiler.) -/
def validateBuilder {σ : Type} (s : List (Parameter σ)) :
    List (VHandler σ) × JsObj (SynthSchema σ) :=
  let pIns := groupByParamIn s
  (jsKeys pIns).foldl
    (fun acc k =>
      let schema := validateParams ((jsLookup pIns k).getD [])
      (acc.1 ++ [⟨schema, k⟩], jsSet acc.2 k schema))
    ([], [])

theorem validateParams_type {σ : Type} (g : List (Parameter σ)) :
    (validateParams g).type = ("object") := by
  suffices h : ∀ (acc : SynthSchema σ),
      (g.foldl (fun acc s =>
        { acc with
          properties := jsSet acc.properties s.name s.schema
          required :=
            if s.required = some true then acc.required ++ [s.name]
            else acc.required }) acc).type = acc.type by
    exact h _
  induction g with
  | nil => intro acc; rfl
  | cons p rest ih => intro acc; exact ih _

theorem validateParams_required {σ : Type} (g : List (Parameter σ)) :
    (validateParams g).required
      = (g.filter (fun p => p.required == some true)).map (fun p => p.name) := by
  suffices h : ∀ (acc : SynthSchema σ),
      (g.foldl (fun acc s =>
        { acc with
          properties := jsSet acc.properties s.name s.schema
          required :=
            if s.required = some true then acc.required ++ [s.name]
            else acc.required }) acc).required
      = acc.required
        ++ (g.filter (fun p => p.required == some true)).map (fun p => p.name) by
    simpa using h { type := ("object"), properties := [], required := [] }
  induction g with
  | nil => intro acc; simp
  | cons p rest ih =>
    intro acc
    by_cases hp : p.required = some true
    · simp [List.foldl_cons, ih, hp, List.filter_cons]
    · have hp2 : ¬ (p.required == some true) = true := by
        simpa using hp
      simp [List.foldl_cons, ih, hp, List.filter_cons, hp2]

theorem find?_append_some {β : Type} {l1 : List β} (l2 : List β)
    {f : β → Bool} {x : β} (h : l1.find? f = some x) :
    (l1 ++ l2).find? f = some x := by
  induction l1 with
  | nil => simp [List.find?] at h
  | cons b t ih =>
    rcases hb : f b with _ | _
    · rw [List.find?_cons_of_neg _ (by simp [hb])] at h
      rw [List.cons_append, List.find?_cons_of_neg _ (by simp [hb])]
      exact ih h
    · rw [List.find?_cons_of_pos _ hb] at h
      rw [List.cons_append, List.find?_cons_of_pos _ hb]
      exact h

theorem find?_append_none {β : Type} {l1 : List β} (l2 : List β)
    {f : β → Bool} (h : l1.find? f = none) :
    (l1 ++ l2).find? f = l2.find? f := by
  induction l1 with
  | nil => simp
  | cons b t ih =>
    rcases hb : f b with _ | _
    · rw [List.find?_cons_of_neg _ (by simp [hb])] at h
      rw [List.cons_append, List.find?_cons_of_neg _ (by simp [hb])]
      exact ih h
    · rw [List.find?_cons_of_pos _ hb] at h
      exact absurd h (by simp)

theorem find?_cons_eval {β : Type} (f : β → Bool) (a : β) (l : List β) :
    (a :: l).find? f = if f a then some a else l.find? f := by
  rcases hb : f a with _ | _
  · rw [List.find?_cons_of_neg _ (by simp [hb])]
    simp [hb]
  · rw [List.find?_cons_of_pos _ hb]
    simp [hb]

theorem validateParams_properties {σ : Type} (g : List (Parameter σ))
    (n : String) :
    jsLookup (validateParams g).properties n
      = (g.reverse.find? (fun p => p.name == n)).map (fun p => p.schema) := by
  suffices h : ∀ (acc : SynthSchema σ),
      jsLookup (g.foldl (fun acc s =>
        { acc with
          properties := jsSet acc.properties s.name s.schema
          required :=
            if s.required = some true then acc.required ++ [s.name]
            else acc.required }) acc).properties n
      = match g.reverse.find? (fun p => p.name == n) with
        | some p => some p.schema
        | none => jsLookup acc.properties n by
    rw [validateParams, h]
    rcases hl : g.reverse.find? (fun p => p.name == n) with _ | p
    · simp [hl, jsLookup]
    · simp [hl]
  induction g with
  | nil => intro acc; rfl
  | cons p rest ih =>
    intro acc
    rw [List.foldl_cons, ih, List.reverse_cons]
    rcases hrest : rest.reverse.find? (fun p => p.name == n) with _ | q
    · rw [find?_append_none _ hrest]
      simp only [hrest]
      rw [find?_cons_eval, List.find?_nil]
      by_cases hn : p.name = n
      · have hn2 : (p.name == n) = true := by simpa using hn
        simp [hn2, jsLookup_jsSet, hn]
      · have hn2 : (p.name == n) = false := by simpa using hn
        have hn3 : ¬ n = p.name := fun e => hn e.symm
        simp [hn2, jsLookup_jsSet, hn3]
    · rw [find?_append_some _ hrest]
      simp only [hrest]

theorem groupByParamIn_lookup {σ : Type} (ps : List (Parameter σ))
    (k : String) :
    jsLookup (groupByParamIn ps) k
      = if (ps.filter (fun p => groupKey p.pin == k)).isEmpty then none
        else some (ps.filter (fun p => groupKey p.pin == k)) := by
  suffices h : ∀ (acc : JsObj (List (Parameter σ))),
      jsLookup (ps.foldl (fun group p =>
        let m := groupKey p.pin
        match jsLookup group m with
        | none => jsSet group m [p]
        | some l => jsSet group m (l ++ [p])) acc) k
      = (jsLookup acc k).elim
          (if (ps.filter (fun p => groupKey p.pin == k)).isEmpty then none
           else some (ps.filter (fun p => groupKey p.pin == k)))
          (fun l => some (l ++ ps.filter (fun p => groupKey p.pin == k))) by
    rw [groupByParamIn, h]
    simp [jsLookup]
  induction ps with
  | nil =>
    intro acc
    rcases hl : jsLookup acc k with _ | l <;> simp [hl]
  | cons p rest ih =>
    intro acc
    rw [List.foldl_cons]
    by_cases hk : groupKey p.pin = k
    · have hk2 : (groupKey p.pin == k) = true := by simpa using hk
      rcases hl : jsLookup acc (groupKey p.pin) with _ | l
      · rw [show (match jsLookup acc (groupKey p.pin) with
            | none => jsSet acc (groupKey p.pin) [p]
            | some l => jsSet acc (groupKey p.pin) (l ++ [p])) =
            jsSet acc (groupKey p.pin) [p] by rw [hl]]
        rw [ih]
        rw [jsLookup_jsSet, if_pos hk.symm]
        rw [hk] at hl
        simp [hl, List.filter_cons, hk2]
      · rw [show (match jsLookup acc (groupKey p.pin) with
            | none => jsSet acc (groupKey p.pin) [p]
            | some l => jsSet acc (groupKey p.pin) (l ++ [p])) =
            jsSet acc (groupKey p.pin) (l ++ [p]) by rw [hl]]
        rw [ih]
        rw [jsLookup_jsSet, if_pos hk.symm]
        rw [hk] at hl
        simp [hl, List.filter_cons, hk2]
    · have hk2 : ¬ (groupKey p.pin == k) = true := by simpa using hk
      have hk3 : ¬ k = groupKey p.pin := fun e => hk e.symm
      rcases hl : jsLookup acc (groupKey p.pin) with _ | l
      · rw [show (match jsLookup acc (groupKey p.pin) with
            | none => jsSet acc (groupKey p.pin) [p]
            | some l => jsSet acc (groupKey p.pin) (l ++ [p])) =
            jsSet acc (groupKey p.pin) [p] by rw [hl]]
        rw [ih, jsLookup_jsSet, if_neg hk3]
        simp [List.filter_cons, hk2]
      · rw [show (match jsLookup acc (groupKey p.pin) with
            | none => jsSet acc (groupKey p.pin) [p]
            | some l => jsSet acc (groupKey p.pin) (l ++ [p])) =
            jsSet acc (groupKey p.pin) (l ++ [p]) by rw [hl]]
        rw [ih, jsLookup_jsSet, if_neg hk3]
        simp [List.filter_cons, hk2]

theorem groupByParamIn_keys_nodup {σ : Type} (ps : List (Parameter σ)) :
    (jsKeys (groupByParamIn ps)).Nodup := by
  suffices h : ∀ (acc : JsObj (List (Parameter σ))), (jsKeys acc).Nodup →
      (jsKeys (ps.foldl (fun group p =>
        let m := groupKey p.pin
        match jsLookup group m with
        | none => jsSet group m [p]
        | some l => jsSet group m (l ++ [p])) acc)).Nodup by
    exact h [] (by simp [jsKeys])
  induction ps with
  | nil => intro acc hacc; exact hacc
  | cons p rest ih =>
    intro acc hacc
    rw [List.foldl_cons]
    rcases hl : jsLookup acc (groupKey p.pin) with _ | l
    · rw [show (match jsLookup acc (groupKey p.pin) with
          | none => jsSet acc (groupKey p.pin) [p]
          | some l => jsSet acc (groupKey p.pin) (l ++ [p])) =
          jsSet acc (groupKey p.pin) [p] by rw [hl]]
      exact ih _ (jsKeys_jsSet_nodup _ _ _ hacc)
    · rw [show (match jsLookup acc (groupKey p.pin) with
          | none => jsSet acc (groupKey p.pin) [p]
          | some l => jsSet acc (groupKey p.pin) (l ++ [p])) =
          jsSet acc (groupKey p.pin) (l ++ [p]) by rw [hl]]
      exact ih _ (jsKeys_jsSet_nodup _ _ _ hacc)

theorem pairFold {σ : Type} (g : String → SynthSchema σ) (ks : List String)
    (acc1 : List (VHandler σ)) (acc2 : JsObj (SynthSchema σ)) :
    ks.foldl (fun acc k => (acc.1 ++ [⟨g k, k⟩], jsSet acc.2 k (g k)))
        (acc1, acc2)
      = (acc1 ++ ks.map (fun k => (⟨g k, k⟩ : VHandler σ)),
         ks.foldl (fun a k => jsSet a k (g k)) acc2) := by
  induction ks generalizing acc1 acc2 with
  | nil => simp
  | cons k rest ih => simp [ih]

theorem keysMapEval {α β : Type} (o : JsObj α) (h : (jsKeys o).Nodup)
    (F : String → α → β) (d : α) :
    (jsKeys o).map (fun k => F k ((jsLookup o k).getD d))
      = o.map (fun kv => F kv.1 kv.2) := by
  induction o with
  | nil => simp [jsKeys]
  | cons kv rest ih =>
    obtain ⟨k, v⟩ := kv
    simp only [jsKeys, List.map_cons, List.nodup_cons] at h
    simp only [jsKeys, List.map_cons, jsLookup, if_pos rfl, Option.getD_some]
    congr 1
    have heq : (List.map (fun kv => kv.1) rest).map
          (fun k2 => F k2 ((if k = k2 then some v else jsLookup rest k2).getD d))
        = (List.map (fun kv => kv.1) rest).map
          (fun k2 => F k2 ((jsLookup rest k2).getD d)) := by
      apply List.map_congr_left
      intro k2 hk2
      have hne : ¬ k = k2 := by
        intro e; exact h.1 (e ▸ hk2)
      rw [if_neg hne]
    rw [heq]
    exact ih h.2

theorem jsSetFold_fresh {α : Type} (g : String → α) (ks : List String) :
    ∀ (acc : JsObj α), ks.Nodup → (∀ k ∈ ks, k ∉ jsKeys acc) →
      ks.foldl (fun a k => jsSet a k (g k)) acc
        = acc ++ ks.map (fun k => (k, g k)) := by
  induction ks with
  | nil => intro acc _ _; simp
  | cons k rest ih =>
    intro acc hnd hfresh
    simp only [List.nodup_cons] at hnd
    rw [List.foldl_cons, jsSet_fresh _ _ _ (hfresh k (by simp))]
    rw [ih _ hnd.2]
    · simp
    · intro k2 hk2
      simp only [jsKeys, List.map_append, List.mem_append]
      push_neg
      constructor
      · exact hfresh k2 (by simp [hk2])
      · simp only [List.map_cons, List.map_nil, List.mem_cons,
          List.not_mem_nil]
        intro e
        rcases e with e | e
        · exact absurd (e ▸ hk2) hnd.1
        · exact absurd e (by simp)

theorem validateBuilder_handlers {σ : Type} (ps : List (Parameter σ)) :
    (validateBuilder ps).1
      = (groupByParamIn ps).map
          (fun kv => (⟨validateParams kv.2, kv.1⟩ : VHandler σ)) := by
  rw [validateBuilder]
  dsimp only
  rw [pairFold]
  dsimp only
  rw [List.nil_append]
  exact keysMapEval (groupByParamIn ps) (groupByParamIn_keys_nodup ps)
    (fun k v => (⟨validateParams v, k⟩ : VHandler σ)) []

theorem validateBuilder_schemaMap {σ : Type} (ps : List (Parameter σ)) :
    (validateBuilder ps).2
      = (groupByParamIn ps).map (fun kv => (kv.1, validateParams kv.2)) := by
  rw [validateBuilder]
  dsimp only
  rw [pairFold]
  dsimp only
  rw [jsSetFold_fresh _ _ [] (groupByParamIn_keys_nodup ps)
    (by intro k _; simp [jsKeys])]
  rw [List.nil_append]
  exact keysMapEval (groupByParamIn ps) (groupByParamIn_keys_nodup ps)
    (fun k v => (k, validateParams v)) []

/-! ## Operations, scope objects and the route composer
(src/lib/index.ts 160-338)

`σ` is the opaque schema payload, `η` the opaque type of user-supplied
Express request handlers. -/

/-- `MediaSchema`: a response or request-body entry.  `content` maps a
content type to the schema of its `{ schema }` wrapper (the wrapper is
inlined). -/
structure MediaSchema (σ : Type) where
  description : String := ""
  content : Option (JsObj σ) := none
deriving DecidableEq, Repr

/-- `ScopeObject` (open-api-3.d.ts): an attached auth binding.  Its
`middleware` are opaque request handlers (the source builds them from the
optional `before` handler and a `ScopeWrapper` gate; their runtime
behaviour is modelled separately). -/
structure ScopeObject (σ η : Type) where
  auth : String
  scopes : List String
  middleware : List η
  responses : JsObj (MediaSchema σ) := []
deriving Repr

/-- An element of the per-route handler chain built by `mapRouter`:
either a user-supplied handler (application middleware or scope
middleware), or a request-body validator compiled verbatim from the
declared `application/json` schema, or a parameter validator compiled
from a synthesized location-group schema and checking the named request
property. -/
inductive ChainH (σ η : Type) : Type
  | user : η → ChainH σ η
  | bodyValidator : σ → ChainH σ η
  | paramValidator : SynthSchema σ → String → ChainH σ η
deriving DecidableEq, Repr

/-- `PathOperation` (open-api-3.d.ts), restricted to the fields the
composition algorithms read.  `security` is the ordered list of
`{ authName: scopeNames }` objects; `wrapper` is the optional per-handler
transform. -/
structure PathOperation (σ η : Type) where
  responses : JsObj (MediaSchema σ) := []
  scope : Option (List (ScopeObject σ η)) := none
  security : Option (List (JsObj (List String))) := none
  parameters : Option (List (Parameter σ)) := none
  requestBody : Option (MediaSchema σ) := none
  wrapper : Option (ChainH σ η → ChainH σ η) := none
  middleware : List η

/-- The wrapper transform used by `mapRouter`:
`let wrapper = (cb) => cb; if (pathOp.wrapper) wrapper = pathOp.wrapper`. -/
def chainWrapper {σ η : Type} (pathOp : PathOperation σ η) :
    ChainH σ η → ChainH σ η :=
  match pathOp.wrapper with
  | some w => w
  | none => fun cb => cb

/-- The scope-middleware prefix of the chain: for each attached scope
binding in order, its middleware in order, each passed through the
wrapper. -/
def scopeChain {σ η : Type} (pathOp : PathOperation σ η) :
    List (ChainH σ η) :=
  ((pathOp.scope.getD []).flatMap (fun s => s.middleware)).map
    (fun m => chainWrapper pathOp (ChainH.user m))

/-- The request-body-validator segment of the chain: one wrapped
validator compiled verbatim from the `application/json` request-body
schema when it is declared, else empty. -/
def bodyChain {σ η : Type} (pathOp : PathOperation σ η) :
    List (ChainH σ η) :=
  match pathOp.requestBody with
  | none => []
  | some rb =>
    match rb.content with
    | none => []
    | some content =>
      match jsLookup content ("application/json") with
      | some sch => [chainWrapper pathOp (ChainH.bodyValidator sch)]
      | none => []

/-- The parameter-validator segment of the chain: the handlers compiled
by `validateBuilder` from the declared parameters, each wrapped. -/
def paramChain {σ η : Type} (pathOp : PathOperation σ η) :
    List (ChainH σ η) :=
  ((validateBuilder (pathOp.parameters.getD [])).1).map
    (fun h => chainWrapper pathOp (ChainH.paramValidator h.schema h.whereIn))

/-- The application-middleware suffix of the chain, each wrapped. -/
def appChain {σ η : Type} (pathOp : PathOperation σ η) :
    List (ChainH σ η) :=
  pathOp.middleware.map (fun m => chainWrapper pathOp (ChainH.user m))

/-- `mapRouter` (src/lib/index.ts 296-338): builds the handler chain
passed to `urtr[method](path, middle)` by successive pushes, mirroring
the source's loops.  Returns `none` for the runtime `TypeError` the
source raises when a declared `requestBody` has no `content` object
(`pathOp.requestBody?.content['application/json']` indexes `undefined`). -/
def mapRouter {σ η : Type} (pathOp : PathOperation σ η) :
    Option (List (ChainH σ η)) :=
  let wrapper := chainWrapper pathOp
  let middle : List (ChainH σ η) := []
  let middle : List (ChainH σ η) :=
    match pathOp.scope with
    | some sc =>
      sc.foldl
        (fun mid s =>
          s.middleware.foldl
            (fun mid2 m => mid2 ++ [wrapper (ChainH.user m)]) mid)
        middle
    | none => middle
  let afterBody : Option (List (ChainH σ η)) :=
    match pathOp.requestBody with
    | none => some middle
    | some rb =>
      match rb.content with
      | none => none
      | some content =>
        match jsLookup content ("application/json") with
        | some sch => some (middle ++ [wrapper (ChainH.bodyValidator sch)])
        | none => some middle
  afterBody.map (fun middle =>
    let middle : List (ChainH σ η) :=
      match pathOp.parameters with
      | some ps =>
        ((validateBuilder ps).1).foldl
          (fun mid h =>
            mid ++ [wrapper (ChainH.paramValidator h.schema h.whereIn)])
          middle
      | none => middle
    pathOp.middleware.foldl
      (fun mid m => mid ++ [wrapper (ChainH.user m)]) middle)

theorem foldl_push {β γ : Type} (f : β → γ) (l : List β) (init : List γ) :
    l.foldl (fun acc x => acc ++ [f x]) init = init ++ l.map f := by
  induction l generalizing init with
  | nil => simp
  | cons b t ih => simp [ih]

theorem scope_foldl_eval {σ η : Type} (w : ChainH σ η → ChainH σ η)
    (sc : List (ScopeObject σ η)) (init : List (ChainH σ η)) :
    sc.foldl
        (fun mid s =>
          s.middleware.foldl
            (fun mid2 m => mid2 ++ [w (ChainH.user m)]) mid)
        init
      = init ++ (sc.flatMap (fun s => s.middleware)).map
          (fun m => w (ChainH.user m)) := by
  induction sc generalizing init with
  | nil => simp
  | cons s rest ih =>
    rw [List.foldl_cons, foldl_push, ih]
    simp

theorem validateBuilder_nil {σ : Type} :
    validateBuilder ([] : List (Parameter σ)) = ([], []) := rfl

/-- Decomposition of `mapRouter`: when registration does not crash, the
chain is the scope middleware, then the body validator, then the
parameter validators, then the application middleware, in that order. -/
theorem mapRouter_decomp {σ η : Type} (pathOp : PathOperation σ η)
    (chain : List (ChainH σ η)) (h : mapRouter pathOp = some chain) :
    chain = scopeChain pathOp ++ bodyChain pathOp ++ paramChain pathOp
      ++ appChain pathOp := by
  have happ : ∀ mid : List (ChainH σ η),
      pathOp.middleware.foldl
          (fun mid2 m => mid2 ++ [chainWrapper pathOp (ChainH.user m)]) mid
        = mid ++ appChain pathOp := by
    intro mid; rw [foldl_push]; rfl
  have hparam : ∀ mid : List (ChainH σ η),
      (match pathOp.parameters with
       | some ps =>
         ((validateBuilder ps).1).foldl
           (fun mid2 hh =>
             mid2 ++ [chainWrapper pathOp
               (ChainH.paramValidator hh.schema hh.whereIn)]) mid
       | none => mid)
        = mid ++ paramChain pathOp := by
    intro mid
    rcases hp : pathOp.parameters with _ | ps
    · simp [paramChain, hp, validateBuilder_nil]
    · simp [hp, foldl_push, paramChain]
  have hscope :
      (match pathOp.scope with
       | some sc =>
         sc.foldl
           (fun mid s =>
             s.middleware.foldl
               (fun mid2 m => mid2 ++ [chainWrapper pathOp (ChainH.user m)])
               mid)
           ([] : List (ChainH σ η))
       | none => ([] : List (ChainH σ η)))
        = scopeChain pathOp := by
    rcases hs : pathOp.scope with _ | sc
    · simp [scopeChain, hs]
    · simp [scope_foldl_eval, scopeChain, hs]
  simp only [mapRouter] at h
  rw [hscope] at h
  rcases hrb : pathOp.requestBody with _ | rb
  · simp only [hrb, Option.map_some', Option.some.injEq] at h
    rw [hparam, happ] at h
    rw [← h]
    simp [bodyChain, hrb]
  · rcases hcont : rb.content with _ | content
    · simp [hrb, hcont] at h
    · rcases hjl : jsLookup content ("application/json") with _ | sch
      · simp only [hrb, hcont, hjl, Option.map_some', Option.some.injEq] at h
        rw [hparam, happ] at h
        rw [← h]
        simp [bodyChain, hrb, hcont, hjl]
      · simp only [hrb, hcont, hjl, Option.map_some', Option.some.injEq] at h
        rw [hparam, happ] at h
        rw [← h]
        simp [bodyChain, hrb, hcont, hjl]

/-! ## AuthPathOp (src/lib/index.ts 245-255) -/

/-- A `PathObject`: HTTP method name to operation. -/
abbrev PathObject (σ η : Type) : Type := JsObj (PathOperation σ η)

/-- `AuthPathOp`: reads the first method key of the path object
(`const [m] = Object.keys(pop)`), overwrites that operation's `security`
with the single entry `[{ [scope.auth]: scope.scopes }]`, overwrites its
`scope` with `[scope]`, merges the scope's responses over the
operation's (`{ ...ret.responses, ...scope.responses }`), and returns
`{ [m]: ret }`.  On an empty path object the source throws a `TypeError`
(reading a property of `undefined`), modelled as `none`. -/
def AuthPathOp {σ η : Type} (scope : ScopeObject σ η)
    (pop : PathObject σ η) : Option (PathObject σ η) :=
  match pop with
  | [] => none
  | (m, ret) :: _ =>
    some [(m,
      { ret with
        security := some [[(scope.auth, scope.scopes)]]
        scope := some [scope]
        responses := jsSpread ret.responses scope.responses })]

/-! ## ScopeWrapper runtime behaviour (src/lib/index.ts 149-158)

A scope check handler is a pure request predicate (the source's
`ScopeHandler` returns a boolean).  The gate's observable behaviour on
one request is the list of calls it makes: either `next()` or the
fallback handler, never both. -/

/-- An observable call made by the gate built by `ScopeWrapper`. -/
inductive GateEvent (η : Type) : Type
  | next : GateEvent η
  | fallback : η → GateEvent η
deriving DecidableEq, Repr

/-- `ScopeWrapper cb scopes` on a request: `if (scopes.some(v => v(req)))
{ next(); return } else { cb(req, res, next) }`. -/
def ScopeWrapper {ρ η : Type} (cb : η) (scopes : List (ρ → Bool))
    (req : ρ) : List (GateEvent η) :=
  if scopes.any (fun v => v req) then [GateEvent.next]
  else [GateEvent.fallback cb]

/-! ## validateHandler runtime behaviour (src/lib/index.ts 528-535 and
src/lib/errors.ts)

The compiled AJV validator is a black box: a pass/fail predicate on the
validated value (`none` models validating `undefined`) together with the
structured `errors` list it exposes after a failing call. -/

/-- One structured AJV error entry. -/
structure AjvError : Type where
  instancePath : String
  message : String
deriving DecidableEq, Repr

/-- A compiled AJV `ValidateFunction`, as a black box. -/
structure ValidateFn (ι : Type) : Type where
  ok : Option ι → Bool
  errs : Option ι → List AjvError

/-- The `ValidationError` class of src/lib/errors.ts: `name` is set to
the string `"ValidationError"`, `message` is the constructor argument,
and `context` holds the engine's error list. -/
structure ValidationErrorE : Type where
  name : String
  message : String
  context : List AjvError
deriving DecidableEq, Repr

/-- The outcome of running a request-gating handler on a request: it
either called `next()` exactly once (carrying the request object it
leaves behind, unchanged) or threw an error without calling `next()`. -/
inductive HandlerOutcome (ι : Type) : Type
  | nexted : JsObj ι → HandlerOutcome ι
  | threw : ValidationErrorE → HandlerOutcome ι
deriving DecidableEq, Repr

/-- `validateHandler valid whereIn` applied to a request (the request is
an object whose sub-objects sit under keys such as `query`, `params`,
`body`): `if (!valid(req[whereIn])) throw new
ValidationError('AejoValidationError', valid.errors); next()`. -/
def validateHandler {ι : Type} (valid : ValidateFn ι) (whereIn : String)
    (req : JsObj ι) : HandlerOutcome ι :=
  if valid.ok (jsLookup req whereIn) then HandlerOutcome.nexted req
  else
    HandlerOutcome.threw
      { name := ("ValidationError")
        message := ("AejoValidationError")
        context := valid.errs (jsLookup req whereIn) }

/-! ## Paths (src/lib/index.ts 97-120)

The aggregator over controller outputs.  A controller output is its list
of path items (`PathItem` maps a path to a `PathObject`); the operation
payload is abstract (`ω`).  `console.warn` is modelled by recording the
collided `` `${method} ${path}` `` string.  `const [path] =
Object.keys(p)` on an empty path item makes `Object.keys(p[path])` throw
a `TypeError`, modelled as `none`; an empty path *object* makes `method`
the JS `undefined`, which the template literal renders as the string
`"undefined"`. -/

structure PathsAcc (ω : Type) : Type where
  out : JsObj (JsObj ω)
  track : List String
  warnings : List String
deriving DecidableEq, Repr

/-- One step of the `Paths` reduce for a single path item. -/
def pathsStep {ω : Type} (acc : PathsAcc ω) (p : JsObj (JsObj ω)) :
    Option (PathsAcc ω) :=
  match jsKeys p with
  | [] => none
  | path :: _ =>
    let po := (jsLookup p path).getD []
    let method := ((jsKeys po).head?).getD ("undefined")
    let full := method ++ (" ") ++ path
    let acc :=
      if full ∈ acc.track then
        { acc with warnings := acc.warnings ++ [full] }
      else
        { acc with track := acc.track ++ [full] }
    some { acc with out := jsSpread acc.out p }

/-- `Paths`: folds every controller's path items into one flat map,
tracking the first (method, path) pair of each item in a set and warning
on re-registration. -/
def Paths {ω : Type} (ctrls : List (List (JsObj (JsObj ω)))) :
    Option (PathsAcc ω) :=
  ctrls.foldl
    (fun acc? c =>
      c.foldl (fun acc2? p => acc2?.bind (fun acc2 => pathsStep acc2 p)) acc?)
    (some { out := [], track := [], warnings := [] })

/-! ## Controller path-key translation (src/lib/index.ts 58-78)

`Controller` rewrites each path key by
`` `${prefix}${k}`.replace(/\(.*?\)/g, '').replace(/:(\w+)/g, '{$1}') ``.
Both regex replaces are embedded exactly: a global replace scans left to
right for the leftmost match and resumes after it; `.` does not match a
JS line terminator; `\w` is `[A-Za-z0-9_]`; `\w+` is greedy; `.*?` is
lazy, so a group match ends at the first `)` reachable without crossing a
line terminator, and an unmatched `(` is left in place. -/

/-- JS line terminators (`\n`, `\r`, U+2028, U+2029), which `.` never
matches. -/
def isLineTerm (c : Char) : Bool :=
  c = Char.ofNat 10 || c = Char.ofNat 13
    || c = Char.ofNat 8232 || c = Char.ofNat 8233

/-- JS `\w`: ASCII letters, digits and underscore. -/
def isWordChar (c : Char) : Bool := c.isAlphanum || c = Char.ofNat 95

/-- Scan for the `)` closing a lazy group: the prefix up to the first `)`
may not contain a line terminator.  Returns the remainder after the `)`,
or `none` when the group cannot match. -/
def skipGroup : List Char → Option (List Char)
  | [] => none
  | c :: cs =>
    if c = (')' : Char) then some cs
    else if isLineTerm c then none
    else skipGroup cs

theorem skipGroup_length : ∀ {cs rest : List Char},
    skipGroup cs = some rest → rest.length < cs.length := by
  intro cs
  induction cs with
  | nil => intro rest h; simp [skipGroup] at h
  | cons c t ih =>
    intro rest h
    by_cases hc : c = (')' : Char)
    · rw [skipGroup, if_pos hc] at h
      cases h
      simp
    · rw [skipGroup, if_neg hc] at h
      rcases hlt : isLineTerm c with _ | _
      · rw [hlt] at h
        simp only [Bool.false_eq_true, if_false] at h
        exact Nat.lt_trans (ih h) (by simp)
      · rw [hlt] at h
        simp at h

/-- Fuel-indexed engine for the global replace of `/\(.*?\)/` by the
empty string.  With fuel at least the input length the fuel never runs
out. -/
def stripGroupsF : Nat → List Char → List Char
  | _, [] => []
  | 0, c :: cs => c :: cs
  | fuel + 1, c :: cs =>
    if c = ('(' : Char) then
      match skipGroup cs with
      | some rest => stripGroupsF fuel rest
      | none => c :: stripGroupsF fuel cs
    else c :: stripGroupsF fuel cs

theorem stripGroupsF_irrel : ∀ (f1 : Nat) {f2 : Nat} {l : List Char},
    l.length ≤ f1 → l.length ≤ f2 → stripGroupsF f1 l = stripGroupsF f2 l := by
  intro f1
  induction f1 with
  | zero =>
    intro f2 l h1 _
    have : l = [] := List.length_eq_zero.mp (Nat.le_zero.mp h1)
    subst this
    cases f2 <;> rfl
  | succ f1 ih =>
    intro f2 l h1 h2
    cases l with
    | nil => cases f2 <;> rfl
    | cons c cs =>
      cases f2 with
      | zero => simp at h2
      | succ f2 =>
        simp only [List.length_cons, Nat.succ_le_succ_iff] at h1 h2
        simp only [stripGroupsF]
        by_cases hc : c = ('(' : Char)
        · rw [if_pos hc, if_pos hc]
          rcases hsg : skipGroup cs with _ | rest
          · show c :: stripGroupsF f1 cs = c :: stripGroupsF f2 cs
            rw [ih h1 h2]
          · show stripGroupsF f1 rest = stripGroupsF f2 rest
            have hlen := skipGroup_length hsg
            exact ih (Nat.le_of_lt (Nat.lt_of_lt_of_le hlen h1))
              (Nat.le_of_lt (Nat.lt_of_lt_of_le hlen h2))
        · rw [if_neg hc, if_neg hc, ih h1 h2]

/-- `replace(/\(.*?\)/g, '')`. -/
def stripGroups (l : List Char) : List Char := stripGroupsF l.length l

theorem stripGroups_nil : stripGroups [] = [] := rfl

theorem stripGroups_cons_other {c : Char} (cs : List Char)
    (h : c ≠ ('(' : Char)) :
    stripGroups (c :: cs) = c :: stripGroups cs := by
  show stripGroupsF (cs.length + 1) (c :: cs) = c :: stripGroups cs
  rw [stripGroupsF, if_neg h]
  rfl

theorem stripGroups_cons_group {cs rest : List Char}
    (h : skipGroup cs = some rest) :
    stripGroups (('(' : Char) :: cs) = stripGroups rest := by
  show stripGroupsF (cs.length + 1) (('(' : Char) :: cs) = stripGroups rest
  rw [stripGroupsF, if_pos rfl, h]
  exact stripGroupsF_irrel cs.length
    (Nat.le_of_lt (skipGroup_length h)) (Nat.le_refl _)

theorem stripGroups_cons_open_fail {cs : List Char}
    (h : skipGroup cs = none) :
    stripGroups (('(' : Char) :: cs) = ('(' : Char) :: stripGroups cs := by
  show stripGroupsF (cs.length + 1) (('(' : Char) :: cs)
    = ('(' : Char) :: stripGroups cs
  rw [stripGroupsF, if_pos rfl, h]
  rfl

theorem stripGroups_append {a : List Char} (b : List Char)
    (h : ∀ c ∈ a, c ≠ ('(' : Char)) :
    stripGroups (a ++ b) = a ++ stripGroups b := by
  induction a with
  | nil => simp
  | cons c t ih =>
    rw [List.cons_append,
      stripGroups_cons_other _ (h c (by simp)),
      ih (fun c2 hc2 => h c2 (by simp [hc2]))]
    rfl

theorem skipGroup_closes {pat : List Char} (rest : List Char)
    (h : ∀ c ∈ pat, c ≠ (')' : Char) ∧ isLineTerm c = false) :
    skipGroup (pat ++ (')' : Char) :: rest) = some rest := by
  induction pat with
  | nil => simp [skipGroup]
  | cons c t ih =>
    have hc := h c (by simp)
    rw [List.cons_append, skipGroup, if_neg hc.1, hc.2]
    simp only [Bool.false_eq_true, if_false]
    exact ih (fun c2 hc2 => h c2 (by simp [hc2]))

/-- The `{` character written into the replacement `{$1}`. -/
def braceL : Char := Char.ofNat 123

/-- The `}` character written into the replacement `{$1}`. -/
def braceR : Char := Char.ofNat 125

theorem dropWhile_length_le {β : Type} (p : β → Bool) (l : List β) :
    (l.dropWhile p).length ≤ l.length := by
  induction l with
  | nil => simp
  | cons b t ih =>
    rcases hb : p b with _ | _
    · rw [List.dropWhile_cons_of_neg (by simp [hb])]
    · rw [List.dropWhile_cons_of_pos hb]
      exact Nat.le_trans ih (by simp)

/-- Fuel-indexed engine for the global replace of `/:(\w+)/` by `{$1}`:
a `:` followed by a nonempty greedy run of word characters becomes that
run wrapped in braces; a `:` followed by none is left in place. -/
def colonizeF : Nat → List Char → List Char
  | _, [] => []
  | 0, c :: cs => c :: cs
  | fuel + 1, c :: cs =>
    if c = (':' : Char) then
      match cs.takeWhile isWordChar with
      | [] => c :: colonizeF fuel cs
      | w => braceL :: (w ++ braceR :: colonizeF fuel (cs.dropWhile isWordChar))
    else c :: colonizeF fuel cs

theorem colonizeF_irrel : ∀ (f1 : Nat) {f2 : Nat} {l : List Char},
    l.length ≤ f1 → l.length ≤ f2 → colonizeF f1 l = colonizeF f2 l := by
  intro f1
  induction f1 with
  | zero =>
    intro f2 l h1 _
    have : l = [] := List.length_eq_zero.mp (Nat.le_zero.mp h1)
    subst this
    cases f2 <;> rfl
  | succ f1 ih =>
    intro f2 l h1 h2
    cases l with
    | nil => cases f2 <;> rfl
    | cons c cs =>
      cases f2 with
      | zero => simp at h2
      | succ f2 =>
        simp only [List.length_cons, Nat.succ_le_succ_iff] at h1 h2
        simp only [colonizeF]
        by_cases hc : c = (':' : Char)
        · rw [if_pos hc, if_pos hc]
          rcases htw : cs.takeWhile isWordChar with _ | ⟨w0, wr⟩
          · show c :: colonizeF f1 cs = c :: colonizeF f2 cs
            rw [ih h1 h2]
          · show braceL :: (w0 :: wr
                ++ braceR :: colonizeF f1 (cs.dropWhile isWordChar))
              = braceL :: (w0 :: wr
                ++ braceR :: colonizeF f2 (cs.dropWhile isWordChar))
            have hd := dropWhile_length_le isWordChar cs
            rw [ih (Nat.le_trans hd h1) (Nat.le_trans hd h2)]
        · rw [if_neg hc, if_neg hc, ih h1 h2]

/-- `replace(/:(\w+)/g, '{$1}')`. -/
def colonize (l : List Char) : List Char := colonizeF l.length l

theorem colonize_nil : colonize [] = [] := rfl

theorem colonize_cons_other {c : Char} (cs : List Char)
    (h : c ≠ (':' : Char)) :
    colonize (c :: cs) = c :: colonize cs := by
  show colonizeF (cs.length + 1) (c :: cs) = c :: colonize cs
  rw [colonizeF, if_neg h]
  rfl

theorem colonize_cons_colon_bare {cs : List Char}
    (h : cs.takeWhile isWordChar = []) :
    colonize ((':' : Char) :: cs) = (':' : Char) :: colonize cs := by
  show colonizeF (cs.length + 1) ((':' : Char) :: cs)
    = (':' : Char) :: colonize cs
  rw [colonizeF, if_pos rfl, h]
  rfl

theorem colonize_cons_colon_word {cs : List Char} {w0 : Char} {wr : List Char}
    (h : cs.takeWhile isWordChar = w0 :: wr) :
    colonize ((':' : Char) :: cs)
      = braceL :: ((w0 :: wr) ++ braceR :: colonize (cs.dropWhile isWordChar)) := by
  show colonizeF (cs.length + 1) ((':' : Char) :: cs) = _
  rw [colonizeF, if_pos rfl, h]
  have hd := dropWhile_length_le isWordChar cs
  rw [colonizeF_irrel cs.length hd (Nat.le_refl _)]
  rfl

theorem colonize_append {a : List Char} (b : List Char)
    (h : ∀ c ∈ a, c ≠ (':' : Char)) :
    colonize (a ++ b) = a ++ colonize b := by
  induction a with
  | nil => simp
  | cons c t ih =>
    rw [List.cons_append,
      colonize_cons_other _ (h c (by simp)),
      ih (fun c2 hc2 => h c2 (by simp [hc2]))]
    rfl

theorem takeWhile_word_append {n rest : List Char}
    (hn : ∀ c ∈ n, isWordChar c = true)
    (hrest : ∀ c, rest.head? = some c → isWordChar c = false) :
    (n ++ rest).takeWhile isWordChar = n
      ∧ (n ++ rest).dropWhile isWordChar = rest := by
  induction n with
  | nil =>
    cases rest with
    | nil => simp
    | cons r t =>
      have hr := hrest r (by simp)
      constructor
      · rw [List.nil_append, List.takeWhile_cons_of_neg (by simp [hr])]
      · rw [List.nil_append, List.dropWhile_cons_of_neg (by simp [hr])]
  | cons c t ih =>
    have hc := hn c (by simp)
    have iht := ih (fun c2 hc2 => hn c2 (by simp [hc2]))
    constructor
    · rw [List.cons_append, List.takeWhile_cons_of_pos hc, iht.1]
    · rw [List.cons_append, List.dropWhile_cons_of_pos hc, iht.2]

theorem colonize_named {n rest : List Char} (hne : n ≠ [])
    (hn : ∀ c ∈ n, isWordChar c = true)
    (hrest : ∀ c, rest.head? = some c → isWordChar c = false) :
    colonize ((':' : Char) :: (n ++ rest))
      = braceL :: (n ++ braceR :: colonize rest) := by
  obtain ⟨hw, hd⟩ := takeWhile_word_append hn hrest
  cases n with
  | nil => exact absurd rfl hne
  | cons n0 nr =>
    rw [colonize_cons_colon_word hw, hd]

theorem string_data_append (a b : String) :
    (a ++ b).data = a.data ++ b.data := by
  obtain ⟨da⟩ := a
  obtain ⟨db⟩ := b
  rfl

/-- The rewritten path key computed by `Controller`:
`` `${ctrl.prefix}${k}`.replace(/\(.*?\)/g, '').replace(/:(\w+)/g, '{$1}') ``.
(The source names the first argument `prefix`, a reserved word here.) -/
def controllerPathKey (pfx k : String) : String :=
  String.mk (colonize (stripGroups ((pfx ++ k).data)))

/-- The `Controller` key-rewriting loop over one path item: for each
original key `k` (snapshot of `Object.keys`), execute
`p[pathKey] = p[k]; delete p[k]`.  Note that when `pathKey` equals `k`
the assignment is a no-op and the delete then removes the entry. -/
def controllerRewriteItem {α : Type} (pfx : String) (p : JsObj α) :
    JsObj α :=
  (jsKeys p).foldl
    (fun q k =>
      match jsLookup q k with
      | none => q
      | some v => jsDelete (jsSet q (controllerPathKey pfx k) v) k)
    p

/-- The documentation-relevant effect of `Controller` on the path items
returned by its route builder (mounting the sub-router is runtime-only). -/
def ControllerRewrite {α : Type} (pfx : String) (paths : List (JsObj α)) :
    List (JsObj α) :=
  paths.map (fun p => controllerRewriteItem pfx p)

/-! ### A grammar of well-formed routing templates

Used to state what the translation does on templates made of literal
text, named segments `:name` and constrained named segments
`:name(pattern)`. -/

inductive PathSeg : Type
  | lit : String → PathSeg
  | named : String → PathSeg
  | constrained : String → String → PathSeg
deriving DecidableEq, Repr

/-- Routing-syntax rendering of one segment. -/
def renderSeg : PathSeg → List Char
  | .lit s => s.data
  | .named n => (':' : Char) :: n.data
  | .constrained n pat =>
    (':' : Char) :: n.data ++ ('(' : Char) :: pat.data ++ [(')' : Char)]

/-- Routing-syntax rendering of a template. -/
def renderSegs : List PathSeg → List Char
  | [] => []
  | s :: rest => renderSeg s ++ renderSegs rest

/-- What survives constraint stripping: `:name(pattern)` loses its
parenthesized group, everything else is unchanged. -/
def strippedSeg : PathSeg → List Char
  | .lit s => s.data
  | .named n => (':' : Char) :: n.data
  | .constrained n _ => (':' : Char) :: n.data

def strippedSegs : List PathSeg → List Char
  | [] => []
  | s :: rest => strippedSeg s ++ strippedSegs rest

/-- Documentation-syntax rendering: named segments become `{name}`. -/
def renderDocSeg : PathSeg → List Char
  | .lit s => s.data
  | .named n => braceL :: n.data ++ [braceR]
  | .constrained n _ => braceL :: n.data ++ [braceR]

def renderDocSegs : List PathSeg → List Char
  | [] => []
  | s :: rest => renderDocSeg s ++ renderDocSegs rest

/-- A usable segment name: nonempty, all word characters. -/
def nameOK (n : String) : Bool :=
  !n.data.isEmpty && n.data.all (fun c => isWordChar c)

/-- Literal text that interacts with neither replace: no `(` (which
would start a group) and no `:` (which could start a named segment). -/
def litOK (s : String) : Bool :=
  s.data.all (fun c => !(c = ('(' : Char)) && !(c = (':' : Char)))

/-- A constraint pattern whose group closes where it should: no `)` and
no line terminator inside. -/
def patOK (p : String) : Bool :=
  p.data.all (fun c => !(c = (')' : Char)) && !isLineTerm c)

/-- True when the stripped remainder does not begin with a word
character, so a preceding `:name` stops munching exactly at its name. -/
def headNotWord : List Char → Bool
  | [] => true
  | c :: _ => !isWordChar c

/-- Well-formed template: each segment is well formed and each named or
constrained segment is followed (after constraint stripping) by a
non-word character or the end of the template. -/
def segsWF : List PathSeg → Bool
  | [] => true
  | .lit s :: rest => litOK s && segsWF rest
  | .named n :: rest =>
    nameOK n && headNotWord (strippedSegs rest) && segsWF rest
  | .constrained n pat :: rest =>
    nameOK n && patOK pat && headNotWord (strippedSegs rest) && segsWF rest

theorem isWordChar_ne_special {c : Char} (h : isWordChar c = true) :
    c ≠ ('(' : Char) ∧ c ≠ (')' : Char) ∧ c ≠ (':' : Char) := by
  refine ⟨?_, ?_, ?_⟩ <;> intro e <;> subst e <;> simp [isWordChar] at h

theorem litOK_no_paren {s : String} (h : litOK s = true) :
    ∀ c ∈ s.data, c ≠ ('(' : Char) := by
  intro c hc
  rw [litOK, List.all_eq_true] at h
  have := h c hc
  simp only [Bool.and_eq_true, Bool.not_eq_true', decide_eq_false_iff_not]
    at this
  exact this.1

theorem litOK_no_colon {s : String} (h : litOK s = true) :
    ∀ c ∈ s.data, c ≠ (':' : Char) := by
  intro c hc
  rw [litOK, List.all_eq_true] at h
  have := h c hc
  simp only [Bool.and_eq_true, Bool.not_eq_true', decide_eq_false_iff_not]
    at this
  exact this.2

theorem nameOK_word {n : String} (h : nameOK n = true) :
    ∀ c ∈ n.data, isWordChar c = true := by
  intro c hc
  rw [nameOK, Bool.and_eq_true, List.all_eq_true] at h
  exact h.2 c hc

theorem nameOK_ne_nil {n : String} (h : nameOK n = true) : n.data ≠ [] := by
  rw [nameOK, Bool.and_eq_true] at h
  simpa using h.1

theorem patOK_closes {p : String} (h : patOK p = true) :
    ∀ c ∈ p.data, c ≠ (')' : Char) ∧ isLineTerm c = false := by
  intro c hc
  rw [patOK, List.all_eq_true] at h
  have := h c hc
  simp only [Bool.and_eq_true, Bool.not_eq_true', decide_eq_false_iff_not]
    at this
  exact this

theorem headNotWord_head? {l : List Char} (h : headNotWord l = true) :
    ∀ c, l.head? = some c → isWordChar c = false := by
  intro c hc
  cases l with
  | nil => simp at hc
  | cons c0 t =>
    simp only [List.head?_cons, Option.some.injEq] at hc
    subst hc
    simpa [headNotWord] using h

theorem stripGroups_renderSegs {segs : List PathSeg}
    (h : segsWF segs = true) :
    stripGroups (renderSegs segs) = strippedSegs segs := by
  induction segs with
  | nil => rfl
  | cons s rest ih =>
    cases s with
    | lit t =>
      rw [segsWF, Bool.and_eq_true] at h
      rw [renderSegs, renderSeg, strippedSegs, strippedSeg,
        stripGroups_append _ (litOK_no_paren h.1), ih h.2]
    | named n =>
      rw [segsWF, Bool.and_eq_true, Bool.and_eq_true] at h
      have hword := nameOK_word h.1.1
      have hno : ∀ c ∈ (':' : Char) :: n.data, c ≠ ('(' : Char) := by
        intro c hc
        rcases List.mem_cons.mp hc with hc | hc
        · subst hc; decide
        · exact (isWordChar_ne_special (hword c hc)).1
      rw [renderSegs, renderSeg, strippedSegs, strippedSeg]
      rw [show ((':' : Char) :: n.data) ++ renderSegs rest
            = ((':' : Char) :: n.data) ++ renderSegs rest from rfl]
      rw [List.cons_append, ← List.cons_append,
        stripGroups_append _ hno, ih h.2]
    | constrained n pat =>
      rw [segsWF, Bool.and_eq_true, Bool.and_eq_true, Bool.and_eq_true] at h
      have hword := nameOK_word h.1.1.1
      have hno : ∀ c ∈ (':' : Char) :: n.data, c ≠ ('(' : Char) := by
        intro c hc
        rcases List.mem_cons.mp hc with hc | hc
        · subst hc; decide
        · exact (isWordChar_ne_special (hword c hc)).1
      have hre : renderSegs (PathSeg.constrained n pat :: rest)
          = ((':' : Char) :: n.data)
            ++ (('(' : Char) :: (pat.data ++ (')' : Char) :: renderSegs rest)) := by
        rw [renderSegs, renderSeg]
        simp [List.append_assoc]
      rw [hre, stripGroups_append _ hno,
        stripGroups_cons_group (skipGroup_closes _ (patOK_closes h.1.1.2)),
        ih h.2, strippedSegs, strippedSeg]

theorem colonize_strippedSegs {segs : List PathSeg}
    (h : segsWF segs = true) :
    colonize (strippedSegs segs) = renderDocSegs segs := by
  induction segs with
  | nil => rfl
  | cons s rest ih =>
    cases s with
    | lit t =>
      rw [segsWF, Bool.and_eq_true] at h
      rw [strippedSegs, strippedSeg, renderDocSegs, renderDocSeg,
        colonize_append _ (litOK_no_colon h.1), ih h.2]
    | named n =>
      rw [segsWF, Bool.and_eq_true, Bool.and_eq_true] at h
      rw [strippedSegs, strippedSeg, List.cons_append,
        colonize_named (nameOK_ne_nil h.1.1) (nameOK_word h.1.1)
          (headNotWord_head? h.1.2), ih h.2, renderDocSegs, renderDocSeg]
      simp
    | constrained n pat =>
      rw [segsWF, Bool.and_eq_true, Bool.and_eq_true, Bool.and_eq_true] at h
      rw [strippedSegs, strippedSeg, List.cons_append,
        colonize_named (nameOK_ne_nil h.1.1.1) (nameOK_word h.1.1.1)
          (headNotWord_head? h.1.2), ih h.2, renderDocSegs, renderDocSeg]
      simp

/-- No character of the controller path prefix is `(` or `:`. -/
def pfxOK (pfx : String) : Bool :=
  pfx.data.all (fun c => !(c = ('(' : Char)) && !(c = (':' : Char)))

theorem controllerPathKey_translation {pfx : String} {segs : List PathSeg}
    (hp : pfxOK pfx = true) (hw : segsWF segs = true) :
    controllerPathKey pfx (String.mk (renderSegs segs))
      = pfx ++ String.mk (renderDocSegs segs) := by
  have hp2 : litOK pfx = true := hp
  rw [controllerPathKey, string_data_append]
  rw [show (String.mk (renderSegs segs)).data = renderSegs segs from rfl]
  rw [stripGroups_append _ (litOK_no_paren hp2), stripGroups_renderSegs hw,
    colonize_append _ (litOK_no_colon hp2), colonize_strippedSegs hw]
  obtain ⟨dp⟩ := pfx
  rfl

theorem controllerRewriteItem_single {α : Type} (pfx k : String) (v : α)
    (h : controllerPathKey pfx k ≠ k) :
    controllerRewriteItem pfx [(k, v)] = [(controllerPathKey pfx k, v)] := by
  have h2 : ¬ k = controllerPathKey pfx k := fun e => h e.symm
  rw [controllerRewriteItem]
  simp only [jsKeys, List.map_cons, List.map_nil, List.foldl_cons,
    List.foldl_nil, jsLookup, if_pos rfl]
  simp [jsSet, jsDelete, h2]

theorem jsLookup_mem {α : Type} {o : JsObj α} {k : String} {v : α}
    (h : jsLookup o k = some v) : (k, v) ∈ o := by
  induction o with
  | nil => simp [jsLookup] at h
  | cons kv rest ih =>
    obtain ⟨k2, v2⟩ := kv
    by_cases hk : k2 = k
    · subst hk
      rw [jsLookup, if_pos rfl] at h
      cases h
      simp
    · rw [jsLookup, if_neg hk] at h
      exact List.mem_cons.mpr (Or.inr (ih h))

theorem groupKey_eq_undefined (pin : ParamIn) :
    (groupKey pin == ("undefined")) = (pin == ParamIn.body) := by
  cases pin <;> decide

/-- Aggregation of exactly two single-path, single-method controllers
registering the same (method, path) pair: one warning naming the exact
`METHOD path` string, no failure, and the later path object wins. -/
theorem paths_two_singletons {ω : Type} (m p : String) (o1 o2 : JsObj ω) :
    Paths [[[(p, [(m, o1)])]], [[(p, [(m, o2)])]]]
      = some { out := [(p, [(m, o2)])]
               track := [m ++ (" ") ++ p]
               warnings := [m ++ (" ") ++ p] } := by
  simp [Paths, pathsStep, jsKeys, jsLookup, jsSpread, jsSet]

/-! ## Claim theorems -/

/-- C1: for every operation descriptor registered by mapRouter for a
(path, method) pair, the handler chain passed to the router is ordered
as: first every scope binding's gate middleware in attachment order,
then the request-body validator if a JSON request-body schema is
present, then one parameter validator per non-empty location group,
then the application middleware in declared order; and every handler is
individually passed through the operation's wrapper transform (identity
when no wrapper is set) before insertion. -/
theorem claim_C1 {σ η : Type} (pathOp : PathOperation σ η)
    (chain : List (ChainH σ η)) (h : mapRouter pathOp = some chain) :
    chain = scopeChain pathOp ++ bodyChain pathOp ++ paramChain pathOp
        ++ appChain pathOp
    ∧ paramChain pathOp
      = (groupByParamIn (pathOp.parameters.getD [])).map
          (fun kv => chainWrapper pathOp
            (ChainH.paramValidator (validateParams kv.2) kv.1)) := by
  refine ⟨mapRouter_decomp pathOp chain h, ?_⟩
  rw [paramChain, validateBuilder_handlers, List.map_map]
  rfl

/-- Concrete operation used by the C1 witness. -/
def cOpC1 : PathOperation String String :=
  { responses := []
    scope := some [{ auth := ("auth"), scopes := [("admin")],
                     middleware := [("gateMW")] }]
    parameters := some [⟨ParamIn.query, ("limit"), none, some true, ("LS")⟩]
    requestBody := some { description := ("d")
                          content := some [(("application/json"), ("BS"))] }
    middleware := [("appMW")] }

/-- Concrete chain produced for `cOpC1`. -/
def chainC1 : List (ChainH String String) :=
  [ChainH.user ("gateMW"), ChainH.bodyValidator ("BS"),
   ChainH.paramValidator
     { type := ("object"), properties := [(("limit"), ("LS"))],
       required := [("limit")] } ("query"),
   ChainH.user ("appMW")]

/-- Witness for C1 at a concrete operation carrying a scope binding, a
JSON request body, one query parameter and one application handler. -/
theorem claim_C1_witness :
    mapRouter cOpC1 = some chainC1
    ∧ (chainC1 = scopeChain cOpC1 ++ bodyChain cOpC1 ++ paramChain cOpC1
          ++ appChain cOpC1
       ∧ paramChain cOpC1
         = (groupByParamIn (cOpC1.parameters.getD [])).map
             (fun kv => chainWrapper cOpC1
               (ChainH.paramValidator (validateParams kv.2) kv.1))) :=
  ⟨by decide, claim_C1 cOpC1 chainC1 (by decide)⟩

/-- Counterexample to C2: after applying AuthPathOp with auth name `a`
and then with auth name `b` to an operation, the resulting security
metadata is exactly the one-entry list `[{ b: [s2] }]`: the earlier
`{ a: [s1] }` entry is gone (no entry of the list carries the key `a`),
so stacking across different auth names is not additive at this input,
contrary to the claim. -/
theorem claim_C2_counterexample :
    ((AuthPathOp
        { auth := ("a"), scopes := [("s1")], middleware := ([] : List Unit),
          responses := ([] : JsObj (MediaSchema Unit)) }
        [(("get"), ({ middleware := [] } : PathOperation Unit Unit))]).bind
      (AuthPathOp
        { auth := ("b"), scopes := [("s2")], middleware := [],
          responses := [] })).map
      (fun po => (jsLookup po ("get")).map (fun o => o.security))
      = some (some (some [[(("b"), [("s2")])]]))
    ∧ ∀ e ∈ [[(("b"), [("s2")])]], jsLookup e ("a") = none := by
  exact ⟨by decide, by decide⟩

/-- C2 amended: applying AuthPathOp twice does not stack security
entries; the second application overwrites, leaving the security
metadata as exactly the single entry `{authName2: scopeNames2}` of the
last applied scope (and the scope list as `[scope2]`), with no entry
for the first auth name when the names differ.  Responses, by contrast,
accumulate across both applications. -/
theorem claim_C2 {σ η : Type} (s1 s2 : ScopeObject σ η) (m : String)
    (op : PathOperation σ η) (rest : PathObject σ η) :
    (AuthPathOp s1 ((m, op) :: rest)).bind (AuthPathOp s2)
      = some [(m,
          { op with
            security := some [[(s2.auth, s2.scopes)]]
            scope := some [s2]
            responses :=
              jsSpread (jsSpread op.responses s1.responses) s2.responses })]
    ∧ (s1.auth ≠ s2.auth →
        ∀ e ∈ [[(s2.auth, s2.scopes)]], jsLookup e s1.auth = none) := by
  constructor
  · rfl
  · intro hne e he
    simp only [List.mem_singleton] at he
    subst he
    rw [jsLookup, if_neg (fun e2 => hne e2.symm)]
    rfl

/-- Scope object with auth name `a`, used by the C2 witness. -/
def scC2a : ScopeObject Unit Unit :=
  { auth := ("a"), scopes := [("s1")], middleware := [], responses := [] }

/-- Scope object with auth name `b`, used by the C2 witness. -/
def scC2b : ScopeObject Unit Unit :=
  { auth := ("b"), scopes := [("s2")], middleware := [], responses := [] }

/-- Witness for the amended C2 at two concrete scopes with distinct
auth names. -/
theorem claim_C2_witness :
    scC2a.auth ≠ scC2b.auth
    ∧ (∀ e ∈ [[(scC2b.auth, scC2b.scopes)]], jsLookup e scC2a.auth = none) :=
  ⟨by decide,
   (claim_C2 scC2a scC2b ("get")
     ({ middleware := [] } : PathOperation Unit Unit) []).2 (by decide)⟩

/-- Counterexample to C3: in the routing template `/:id(x)abc` the
named segment `id` carries the constraint `(x)` and is followed by the
literal `abc`.  The claim requires the constraint to be dropped and the
segment name to be preserved, which would give `/api/{id}abc`; the code
instead strips the group first and then brace-wraps the merged word run
`idabc`, producing `/api/{idabc}`. -/
theorem claim_C3_counterexample :
    controllerPathKey ("/api") ("/:id(x)abc") = ("/api/\x7bidabc\x7d")
    ∧ controllerPathKey ("/api") ("/:id(x)abc") ≠ ("/api/\x7bid\x7dabc") := by
  exact ⟨by decide, by decide⟩

/-- C3 amended: the Controller key rewrite first removes every
parenthesized group (attached to a named segment or not) and then
brace-wraps every `:`-led maximal word run.  For well-formed templates
— named segments with word-character names, constraint patterns free of
`)` and line terminators, and every named/constrained segment followed
by a non-word character or the template end — and a prefix containing
no `(` or `:`, the rewritten key is exactly prefix + template with each
constraint dropped and each `:name` turned into `{name}`, names
preserved; and the rewrite loop replaces a (single-key) path item's key
with the rewritten key whenever the rewrite changes it. -/
theorem claim_C3 {pfx : String} {segs : List PathSeg}
    (hp : pfxOK pfx = true) (hw : segsWF segs = true) :
    controllerPathKey pfx (String.mk (renderSegs segs))
      = pfx ++ String.mk (renderDocSegs segs)
    ∧ ∀ (α : Type) (v : α),
        controllerPathKey pfx (String.mk (renderSegs segs))
            ≠ String.mk (renderSegs segs) →
          controllerRewriteItem pfx [(String.mk (renderSegs segs), v)]
            = [(controllerPathKey pfx (String.mk (renderSegs segs)), v)] := by
  refine ⟨controllerPathKey_translation hp hw, ?_⟩
  intro α v hne
  exact controllerRewriteItem_single _ _ _ hne

/-- Concrete well-formed template `/:id(\d+)` used by the C3 witness. -/
def segsC3 : List PathSeg :=
  [PathSeg.lit ("/"), PathSeg.constrained ("id") ("\\d+")]

/-- Witness for the amended C3: `/api` + `/:id(\d+)` rewrites to
`/api/{id}`. -/
theorem claim_C3_witness :
    pfxOK ("/api") = true ∧ segsWF segsC3 = true
    ∧ (controllerPathKey ("/api") (String.mk (renderSegs segsC3))
        = ("/api") ++ String.mk (renderDocSegs segsC3)
       ∧ ∀ (α : Type) (v : α),
          controllerPathKey ("/api") (String.mk (renderSegs segsC3))
              ≠ String.mk (renderSegs segsC3) →
            controllerRewriteItem ("/api") [(String.mk (renderSegs segsC3), v)]
              = [(controllerPathKey ("/api") (String.mk (renderSegs segsC3)), v)]) :=
  ⟨by decide, by decide, claim_C3 (by decide) (by decide)⟩

/-- C4: the validator builder partitions parameters by location into
disjoint groups (a parameter lands in exactly the group keyed by its
location's mapped key, in order); for each group the synthesized schema
is object-typed, its properties map each parameter's name to its schema
(the last write winning on duplicate names), and its required list
holds exactly the names of parameters declared with `required: true`,
in order; and exactly one validator handler is produced per non-empty
group, carrying that group's synthesized schema and location key. -/
theorem claim_C4 {σ : Type} (ps : List (Parameter σ)) :
    (∀ k, jsLookup (groupByParamIn ps) k
        = if (ps.filter (fun q => groupKey q.pin == k)).isEmpty then none
          else some (ps.filter (fun q => groupKey q.pin == k)))
    ∧ (∀ g : List (Parameter σ),
        (validateParams g).type = ("object")
        ∧ (validateParams g).required
            = (g.filter (fun q => q.required == some true)).map
                (fun q => q.name)
        ∧ ∀ n, jsLookup (validateParams g).properties n
            = (g.reverse.find? (fun q => q.name == n)).map (fun q => q.schema))
    ∧ (validateBuilder ps).1
        = (groupByParamIn ps).map
            (fun kv => (⟨validateParams kv.2, kv.1⟩ : VHandler σ)) := by
  refine ⟨groupByParamIn_lookup ps, ?_, validateBuilder_handlers ps⟩
  intro g
  exact ⟨validateParams_type g, validateParams_required g,
    validateParams_properties g⟩

/-- C5: the gate built by ScopeWrapper calls next() (and does not invoke
the fallback) when at least one scope check returns true on the request,
and invokes the fallback handler (and does not call next()) when every
scope check returns false. -/
theorem claim_C5 {ρ η : Type} (cb : η) (scopes : List (ρ → Bool))
    (req : ρ) :
    ((∃ s ∈ scopes, s req = true) →
      ScopeWrapper cb scopes req = [GateEvent.next])
    ∧ ((∀ s ∈ scopes, s req = false) →
      ScopeWrapper cb scopes req = [GateEvent.fallback cb]) := by
  constructor
  · intro hex
    rw [ScopeWrapper, if_pos]
    rw [List.any_eq_true]
    obtain ⟨s, hs, hr⟩ := hex
    exact ⟨s, hs, hr⟩
  · intro hall
    rw [ScopeWrapper, if_neg]
    intro hc
    rw [List.any_eq_true] at hc
    obtain ⟨s, hs, hr⟩ := hc
    rw [hall s hs] at hr
    exact Bool.false_ne_true hr

/-- Witness for C5: with checks `n > 9` (false) and `n > 3` (true) the
gate admits request 5 (OR semantics) and invokes the fallback on
request 1 where both checks fail. -/
theorem claim_C5_witness :
    (∃ s ∈ [fun (n : Nat) => decide (n > 9), fun n => decide (n > 3)],
      s 5 = true)
    ∧ ScopeWrapper ("denied")
        [fun (n : Nat) => decide (n > 9), fun n => decide (n > 3)] 5
        = [GateEvent.next]
    ∧ (∀ s ∈ [fun (n : Nat) => decide (n > 9), fun n => decide (n > 3)],
        s 1 = false)
    ∧ ScopeWrapper ("denied")
        [fun (n : Nat) => decide (n > 9), fun n => decide (n > 3)] 1
        = [GateEvent.fallback ("denied")] := by
  have hex : ∃ s ∈ [fun (n : Nat) => decide (n > 9), fun n => decide (n > 3)],
      s 5 = true := ⟨fun n => decide (n > 3), by simp, by decide⟩
  have hall : ∀ s ∈ [fun (n : Nat) => decide (n > 9), fun n => decide (n > 3)],
      s 1 = false := by
    intro s hs
    rcases List.mem_cons.mp hs with hs | hs
    · subst hs; decide
    · rcases List.mem_cons.mp hs with hs | hs
      · subst hs; decide
      · exact absurd hs (List.not_mem_nil s)
  exact ⟨hex, (claim_C5 _ _ _).1 hex, hall, (claim_C5 _ _ _).2 hall⟩

/-- C6: the request-gating handler throws a ValidationError — named
`ValidationError`, with message `AejoValidationError` and carrying the
engine's structured error list — and does not invoke the next step if
and only if the validator rejects the corresponding request sub-object;
when the validator accepts, it invokes the next step exactly once with
the request unchanged. -/
theorem claim_C6 {ι : Type} (valid : ValidateFn ι) (whereIn : String)
    (req : JsObj ι) :
    (validateHandler valid whereIn req
        = HandlerOutcome.threw
            { name := ("ValidationError")
              message := ("AejoValidationError")
              context := valid.errs (jsLookup req whereIn) }
      ↔ valid.ok (jsLookup req whereIn) = false)
    ∧ (valid.ok (jsLookup req whereIn) = true →
        validateHandler valid whereIn req = HandlerOutcome.nexted req) := by
  constructor
  · constructor
    · intro h
      rcases hok : valid.ok (jsLookup req whereIn) with _ | _
      · rfl
      · rw [validateHandler, if_pos hok] at h
        exact absurd h (by simp)
    · intro hok
      rw [validateHandler, if_neg (by simp [hok])]
  · intro hok
    rw [validateHandler, if_pos hok]

/-- Concrete compiled validator used by the C6 witness: accepts any
defined sub-object, rejects `undefined` with one structured error. -/
def cvC6 : ValidateFn Nat :=
  { ok := fun o => o.isSome
    errs := fun o =>
      if o.isSome then [] else [{ instancePath := (""), message := ("missing") }] }

/-- Concrete request used by the C6 witness: has a `query` sub-object
and no `body`. -/
def reqC6 : JsObj Nat := [(("query"), 5)]

/-- Witness for C6: the handler passes the request through unchanged at
the present `query` key, and at the absent `body` key the
throw-iff-reject equivalence holds. -/
theorem claim_C6_witness :
    cvC6.ok (jsLookup reqC6 ("query")) = true
    ∧ validateHandler cvC6 ("query") reqC6 = HandlerOutcome.nexted reqC6
    ∧ (validateHandler cvC6 ("body") reqC6
        = HandlerOutcome.threw
            { name := ("ValidationError")
              message := ("AejoValidationError")
              context := cvC6.errs (jsLookup reqC6 ("body")) }
       ↔ cvC6.ok (jsLookup reqC6 ("body")) = false) :=
  ⟨by decide, (claim_C6 cvC6 ("query") reqC6).2 (by decide),
   (claim_C6 cvC6 ("body") reqC6).1⟩

/-- Counterexample to C7: the first controller registers `/shared` with
both `get` and `post`; the second registers `/shared` with `post`.
Both controllers thus contribute the pair (post, /shared), yet the
aggregator emits no diagnostic at all — it only tracks the first method
key of each path item, and the first item's first method is `get`. -/
theorem claim_C7_counterexample :
    (Paths [[[(("/shared"),
                [(("get"), ("A" : String)), (("post"), ("B"))])]],
             [[(("/shared"), [(("post"), ("C" : String))])]]]).map
        (fun a => a.warnings)
      = some []
    ∧ jsLookup ((jsLookup
          [(("/shared"), [(("get"), ("A" : String)), (("post"), ("B"))])]
          ("/shared")).getD []) ("post") = some ("B")
    ∧ jsLookup ((jsLookup
          [(("/shared"), [(("post"), ("C" : String))])]
          ("/shared")).getD []) ("post") = some ("C") := by
  exact ⟨by decide, by decide, by decide⟩

/-- C7 amended: the aggregator detects duplicates from the first path
key and first method key of each contributed path item only.  When two
controllers each contribute one path item with a single path and single
method and those (method, path) pairs coincide, aggregation succeeds
(neither registration fails), emits exactly one diagnostic naming the
exact `METHOD path` string, and the final map holds the later
registration's path object for that path (last write wins at the path
level). -/
theorem claim_C7 {ω : Type} (m p : String) (o1 o2 : JsObj ω) :
    Paths [[[(p, [(m, o1)])]], [[(p, [(m, o2)])]]]
      = some { out := [(p, [(m, o2)])]
               track := [m ++ (" ") ++ p]
               warnings := [m ++ (" ") ++ p] } :=
  paths_two_singletons m p o1 o2

/-- C8: AuthPathOp merges the scope object's failure responses into the
declared responses of the operation it decorates: the result's response
map has exactly the status codes of both maps, the scope's entry wins
on every collision (every code present in the scope's map resolves to
the scope's entry), and codes absent from the scope's map keep the
operation's entry. -/
theorem claim_C8 {σ η : Type} (scope : ScopeObject σ η) (m : String)
    (op : PathOperation σ η) (rest : PathObject σ η)
    (h : (jsKeys scope.responses).Nodup) :
    ∃ op2 : PathOperation σ η,
      AuthPathOp scope ((m, op) :: rest) = some [(m, op2)]
      ∧ (∀ code, code ∈ jsKeys op2.responses
          ↔ code ∈ jsKeys op.responses ∨ code ∈ jsKeys scope.responses)
      ∧ (∀ code, code ∈ jsKeys scope.responses →
          jsLookup op2.responses code = jsLookup scope.responses code)
      ∧ (∀ code, code ∉ jsKeys scope.responses →
          jsLookup op2.responses code = jsLookup op.responses code) := by
  refine ⟨_, rfl, ?_, ?_, ?_⟩
  · intro code
    exact jsKeys_jsSpread_mem op.responses scope.responses code
  · intro code hc
    exact jsLookup_jsSpread_mem _ _ h code hc
  · intro code hc
    exact jsLookup_jsSpread_not_mem _ _ h code hc

/-- Scope object used by the C8 witness, with a `400` failure response
colliding with the operation's declared `400`. -/
def scC8 : ScopeObject Unit Unit :=
  { auth := ("auth"), scopes := [("admin")], middleware := []
    responses := [(("400"), { description := ("scope 400") })] }

/-- Operation used by the C8 witness, declaring `200` and `400`. -/
def opC8 : PathOperation Unit Unit :=
  { middleware := []
    responses := [(("200"), { description := ("ok") }),
                  (("400"), { description := ("op 400") })] }

/-- Witness for C8 at a concrete scope and operation with a colliding
status code `400`. -/
theorem claim_C8_witness :
    (jsKeys scC8.responses).Nodup
    ∧ ∃ op2 : PathOperation Unit Unit,
        AuthPathOp scC8 [(("get"), opC8)] = some [(("get"), op2)]
        ∧ (∀ code, code ∈ jsKeys op2.responses
            ↔ code ∈ jsKeys opC8.responses ∨ code ∈ jsKeys scC8.responses)
        ∧ (∀ code, code ∈ jsKeys scC8.responses →
            jsLookup op2.responses code = jsLookup scC8.responses code)
        ∧ (∀ code, code ∉ jsKeys scC8.responses →
            jsLookup op2.responses code = jsLookup opC8.responses code) :=
  ⟨by decide, claim_C8 scC8 ("get") opC8 [] (by decide)⟩

/-- Counterexample to C9: a parameter with location `body` *is* routed
through the per-field location grouping — the location map has no entry
for `body`, so the group key is the JS-coerced string `"undefined"` —
and the builder produces a per-field validator handler for it checking
the request property `"undefined"`, contrary to the claim that body
parameters bypass the grouping. -/
theorem claim_C9_counterexample :
    groupByParamIn
        [(⟨ParamIn.body, ("payload"), none, some true, ("S")⟩ :
          Parameter String)]
      = [(("undefined"),
          [⟨ParamIn.body, ("payload"), none, some true, ("S")⟩])]
    ∧ (validateBuilder
        [(⟨ParamIn.body, ("payload"), none, some true, ("S")⟩ :
          Parameter String)]).1
      = [⟨{ type := ("object"), properties := [(("payload"), ("S"))],
            required := [("payload")] }, ("undefined")⟩] := by
  exact ⟨by decide, by decide⟩

/-- C9 amended: body-located parameters are routed through the grouping
under the key `"undefined"` (the missing `inMap` entry), and when any
are present the builder emits a per-field validator handler for that
group; request-body content itself is validated only by the single
validator compiled verbatim from the declared `application/json`
request-body schema, which sits in the chain ahead of all parameter
validators. -/
theorem claim_C9 {σ η : Type} (ps : List (Parameter σ))
    (pathOp : PathOperation σ η) (chain : List (ChainH σ η))
    (h : mapRouter pathOp = some chain) :
    (jsLookup (groupByParamIn ps) ("undefined")
        = if (ps.filter (fun q => q.pin == ParamIn.body)).isEmpty then none
          else some (ps.filter (fun q => q.pin == ParamIn.body)))
    ∧ ((ps.filter (fun q => q.pin == ParamIn.body)).isEmpty = false →
        ∃ hh, hh ∈ (validateBuilder ps).1 ∧ hh.whereIn = ("undefined")
          ∧ hh.schema
              = validateParams (ps.filter (fun q => q.pin == ParamIn.body)))
    ∧ (∃ pre post,
        chain = pre ++ (bodyChain pathOp ++ (paramChain pathOp ++ post))) := by
  have hfilter : ps.filter (fun q => groupKey q.pin == ("undefined"))
      = ps.filter (fun q => q.pin == ParamIn.body) :=
    List.filter_congr (fun a _ => groupKey_eq_undefined a.pin)
  refine ⟨?_, ?_, ?_⟩
  · rw [groupByParamIn_lookup, hfilter]
  · intro hne
    have hlk : jsLookup (groupByParamIn ps) ("undefined")
        = some (ps.filter (fun q => q.pin == ParamIn.body)) := by
      rw [groupByParamIn_lookup, hfilter, hne]
      simp
    have hmem := jsLookup_mem hlk
    rw [validateBuilder_handlers]
    exact ⟨⟨validateParams (ps.filter (fun q => q.pin == ParamIn.body)),
        ("undefined")⟩,
      List.mem_map.mpr ⟨_, hmem, rfl⟩, rfl, rfl⟩
  · refine ⟨scopeChain pathOp, appChain pathOp, ?_⟩
    rw [mapRouter_decomp pathOp chain h]
    simp [List.append_assoc]

/-- Concrete parameter list (one body parameter) used by the C9
witness. -/
def psC9 : List (Parameter String) :=
  [⟨ParamIn.body, ("payload"), none, some true, ("S")⟩]

/-- Concrete operation used by the C9 witness: declares a JSON request
body and one query parameter. -/
def opC9 : PathOperation String String :=
  { parameters := some [⟨ParamIn.query, ("limit"), none, none, ("LS")⟩]
    requestBody := some { description := ("d")
                          content := some [(("application/json"), ("BS"))] }
    middleware := [("appMW")] }

/-- Concrete chain produced for `opC9`. -/
def chainC9 : List (ChainH String String) :=
  [ChainH.bodyValidator ("BS"),
   ChainH.paramValidator
     { type := ("object"), properties := [(("limit"), ("LS"))],
       required := [] } ("query"),
   ChainH.user ("appMW")]

/-- Witness for the amended C9 at a body parameter and an operation
with a JSON body, a query parameter and one application handler. -/
theorem claim_C9_witness :
    mapRouter opC9 = some chainC9
    ∧ (psC9.filter (fun q => q.pin == ParamIn.body)).isEmpty = false
    ∧ ((jsLookup (groupByParamIn psC9) ("undefined")
          = if (psC9.filter (fun q => q.pin == ParamIn.body)).isEmpty
            then none
            else some (psC9.filter (fun q => q.pin == ParamIn.body)))
       ∧ ((psC9.filter (fun q => q.pin == ParamIn.body)).isEmpty = false →
          ∃ hh, hh ∈ (validateBuilder psC9).1 ∧ hh.whereIn = ("undefined")
            ∧ hh.schema
                = validateParams
                    (psC9.filter (fun q => q.pin == ParamIn.body)))
       ∧ (∃ pre post,
          chainC9 = pre
            ++ (bodyChain opC9 ++ (paramChain opC9 ++ post)))) :=
  ⟨by decide, by decide, claim_C9 psC9 opC9 chainC9 (by decide)⟩

/-- C10: on a PathObject with two or more method entries, AuthPathOp
returns a PathObject containing only the first method key and its
decorated operation; every other method key is absent from the result
(and its operation receives no decoration). -/
theorem claim_C10 {σ η : Type} (scope : ScopeObject σ η) (m : String)
    (op : PathOperation σ η) (rest : PathObject σ η) (_h : rest ≠ []) :
    AuthPathOp scope ((m, op) :: rest)
      = some [(m,
          { op with
            security := some [[(scope.auth, scope.scopes)]]
            scope := some [scope]
            responses := jsSpread op.responses scope.responses })]
    ∧ ∀ m2, m2 ≠ m →
        jsLookup [(m,
          { op with
            security := some [[(scope.auth, scope.scopes)]]
            scope := some [scope]
            responses := jsSpread op.responses scope.responses })] m2
          = none := by
  refine ⟨rfl, ?_⟩
  intro m2 hm2
  rw [jsLookup, if_neg (fun e => hm2 e.symm)]
  rfl

/-- Scope object used by the C10 witness. -/
def scC10 : ScopeObject Unit Unit :=
  { auth := ("b"), scopes := [("s2")], middleware := [], responses := [] }

/-- Witness for C10 at a two-method path object (`get` first, `post`
second): the result keeps only `get`, and `post` is absent. -/
theorem claim_C10_witness :
    (([(("post"), ({ middleware := [] } : PathOperation Unit Unit))] :
        PathObject Unit Unit) ≠ [])
    ∧ (AuthPathOp scC10
        ((("get"), ({ middleware := [] } : PathOperation Unit Unit))
          :: [(("post"), ({ middleware := [] } : PathOperation Unit Unit))])
        = some [(("get"),
            { ({ middleware := [] } : PathOperation Unit Unit) with
              security := some [[(scC10.auth, scC10.scopes)]]
              scope := some [scC10]
              responses :=
                jsSpread
                  ({ middleware := [] } :
                    PathOperation Unit Unit).responses scC10.responses })]
       ∧ ∀ m2, m2 ≠ ("get") →
          jsLookup [(("get"),
            { ({ middleware := [] } : PathOperation Unit Unit) with
              security := some [[(scC10.auth, scC10.scopes)]]
              scope := some [scC10]
              responses :=
                jsSpread
                  ({ middleware := [] } :
                    PathOperation Unit Unit).responses scC10.responses })] m2
            = none) :=
  ⟨by simp,
   claim_C10 scC10 ("get") ({ middleware := [] } : PathOperation Unit Unit)
     [(("post"), ({ middleware := [] } : PathOperation Unit Unit))]
     (by simp)⟩

end Aejo
